import Mathlib

/-!
Verification model of the `sfm` repository (secure file manager).

Shallow embedding of:
  * `internal/crypto/encryption.go` — key derivation, AES-CTR streaming cipher
  * `internal/crypto/container.go`  — encrypted container create/extract
  * `internal/airdrop/identity.go`  — device identity and fingerprint
  * `internal/airdrop/protocol.go`  — handshake request sign/verify, checksums
  * `internal/airdrop/secure_server.go` — session table, chunk/status handlers
  * `internal/airdrop/secure_client.go` — total-chunk computation

Cryptographic library functions (SHA-256, Argon2id, AES-CTR keystream,
AES-GCM, X25519, Ed25519) and the gzip/tar codec are modelled as parameters
collected in the structure `Prims`; the laws the Go libraries guarantee are
stated as explicit hypotheses (`GzipRoundTrip`, `GcmRoundTrip`, ...).
Machine integers are modelled as `Int` (Go `int`/`int64`) or `Nat` with
explicit reductions mod 2^w where overflow matters.
-/

/-- Byte strings: lists of naturals (each byte is `< 256` where it matters). -/
abbrev Bytes := List Nat

/-- Little-endian encoding of a `u32` (as written by `binary.Write` with
`binary.LittleEndian`). -/
def u32le (n : Nat) : Bytes :=
  [n % 256, n / 256 % 256, n / 65536 % 256, n / 16777216 % 256]

/-- Little-endian decoding of 4 bytes into a `u32`. -/
def u32dec (bs : Bytes) : Nat :=
  match bs with
  | [a, b, c, d] => a + 256 * b + 65536 * c + 16777216 * d
  | _ => 0

/-- One lowercase hex digit, as produced by Go `encoding/hex`. -/
def hexDigit (n : Nat) : Char :=
  if n < 10 then Char.ofNat (48 + n) else Char.ofNat (87 + n)

/-- Two lowercase hex digits of one byte. -/
def byteHex (b : Nat) : List Char :=
  [hexDigit (b / 16), hexDigit (b % 16)]

/-- `hex.EncodeToString`: lowercase hex of a byte string. -/
def hexEncode (bs : Bytes) : String :=
  String.mk (bs.flatMap byteHex)

/-- A tar archive entry: name, type flag, and (for regular files) content. -/
inductive ArchiveEntry where
  | dir (name : String)
  | reg (name : String) (content : Bytes)
  | other (name : String)
deriving DecidableEq, Repr

/-- External cryptographic and compression primitives used by the Go code,
modelled as abstract functions.  Field names follow the library calls. -/
structure Prims where
  /-- `sha256.Sum256`. -/
  sha256 : Bytes → Bytes
  /-- `argon2.IDKey password salt time memory threads` with key length 32. -/
  argon2id : String → Bytes → Nat → Nat → Nat → Bytes
  /-- AES-256-CTR keystream byte at a position, for a key and a nonce
  (`cipher.NewCTR block nonce`). -/
  ctrKs : Bytes → Bytes → Nat → Nat
  /-- `gcm.Seal` with a given 12-byte nonce (output `nonce ‖ ct ‖ tag`). -/
  gcmSeal : Bytes → Bytes → Bytes → Bytes
  /-- `gcm.Open` after splitting the nonce off (input `nonce ‖ ct ‖ tag`);
  `none` models an authentication error. -/
  gcmOpen : Bytes → Bytes → Option Bytes
  /-- The gzip-compressed tar encoding of a list of archive entries
  (`gzip.NewWriter` ∘ `tar.NewWriter`). -/
  packC : List ArchiveEntry → Bytes
  /-- gzip + tar decoding (`gzip.NewReader`, then iterating
  `tar.Reader.Next`); `none` models a gzip/tar format error. -/
  packD : Bytes → Option (List ArchiveEntry)
  /-- `ed25519` public key of a private key. -/
  edPub : Bytes → Bytes
  /-- `ed25519.Sign`. -/
  edSign : Bytes → Bytes → Bytes
  /-- `ed25519.Verify`. -/
  edVerify : Bytes → Bytes → Bytes → Bool
  /-- `curve25519.X25519 scalar point`. -/
  x25519 : Bytes → Bytes → Bytes

/-! ## Streaming cipher (`encryption.go`, `EncryptStream` / `DecryptStream`)

CTR mode is a xor with the keystream; `ctrXor` applies a keystream function
positionally.  `EncryptStream` writes the 12-byte nonce, then the CTR stream;
`DecryptStream` reads a 12-byte nonce (failing only when fewer than 12 bytes
are available) and xors the rest — it has no authentication step and cannot
fail on a wrong key. -/

/-- Xor a byte string with a keystream, position by position. -/
def ctrXor (ks : Nat → Nat) (data : Bytes) : Bytes :=
  data.mapIdx fun i b => Nat.xor (ks i) b

/-- `EncryptStream reader writer key` with the random nonce made explicit. -/
def encryptStream (P : Prims) (key nonce plain : Bytes) : Bytes :=
  nonce ++ ctrXor (P.ctrKs key nonce) plain

/-- `DecryptStream reader writer key`: `none` only when the nonce read fails
(fewer than 12 bytes); otherwise it always produces output. -/
def decryptStream (P : Prims) (key input : Bytes) : Option Bytes :=
  if input.length < 12 then none
  else some (ctrXor (P.ctrKs key (input.take 12)) (input.drop 12))

/-! ## Container engine (`container.go`) -/

/-- A source file tree handed to `CreateContainer` (a regular file or a
directory with children listed in `filepath.Walk` order). -/
inductive FSNode where
  | file (name : String) (content : Bytes)
  | dir (name : String) (children : List FSNode)

/-- `addToArchive tarWriter sourcePath ""` — the call made by
`CreateContainer`.  Because `baseDir` is the empty string for the whole walk,
`header.Name = filepath.Base(path)` for every visited path: every entry is
named by its base name alone. -/
def walkEntries : FSNode → List ArchiveEntry
  | .file name content => [.reg name content]
  | .dir name children => .dir name :: goChildren children
where
  goChildren : List FSNode → List ArchiveEntry
    | [] => []
    | t :: ts => walkEntries t ++ goChildren ts

/-- The 64-byte container header written by `binary.Write` (little-endian):
magic `SFM\x00`, version 1, 32-byte salt, Argon2 time, memory, threads,
15 reserved zero bytes. -/
def headerBytes (salt : Bytes) (time mem thr : Nat) : Bytes :=
  [83, 70, 77, 0] ++ u32le 1 ++ salt ++ u32le time ++ u32le mem ++
    [thr % 256] ++ List.replicate 15 0

/-- `CreateContainer sourcePath containerPath password time memory threads`,
with the CSPRNG outputs (salt, stream nonce) made explicit inputs.  The
result is the byte content of the container file. -/
def createContainer (P : Prims) (tree : FSNode) (password : String)
    (time mem thr : Nat) (salt nonce : Bytes) : Bytes :=
  let key := P.argon2id password salt time mem thr
  headerBytes salt time mem thr ++
    encryptStream P key nonce (P.packC (walkEntries tree))

/-- The failure modes of `ExtractContainer`, keyed by the wrapped error
message in the source:
`headerShort` = "failed to read header" (`binary.Read` short input);
`invalidFormat` = "invalid container format" (magic mismatch);
`decryptFailed` = "failed to decrypt data (wrong password?)" — the error
presented as AuthenticationFailed / wrong-password;
`archiveErr` = "failed to create gzip reader" / "failed to read tar". -/
inductive CErr where
  | headerShort
  | invalidFormat
  | decryptFailed
  | archiveErr
deriving DecidableEq, Repr

/-- The extraction effect on the output directory: directories created
(`os.MkdirAll`) and regular files written (`os.Create` + copy), both as
relative paths below `outputPath`, split into components. -/
structure ExtractedFS where
  dirs : List (List String)
  files : List (List String × Bytes)
deriving DecidableEq, Repr

/-- Split a character list at a separator (structural model of Go
`strings`/`filepath` path splitting). -/
def splitChars (sep : Char) : List Char → List Char → List (List Char)
  | acc, [] => [acc.reverse]
  | acc, c :: cs =>
      if c = sep then acc.reverse :: splitChars sep [] cs
      else splitChars sep (c :: acc) cs

/-- Split a tar entry name into path components. -/
def splitPath (s : String) : List String :=
  (splitChars '/' [] s.toList).map String.mk

/-- The directories `os.MkdirAll` creates for a component path: every
nonempty prefix. -/
def mkdirAllDirs (p : List String) : List (List String) :=
  (List.range p.length).map fun i => p.take (i + 1)

/-- Apply one tar entry to the output tree, as the extraction loop does:
`TypeDir` → `MkdirAll target`; `TypeReg` → `MkdirAll (Dir target)` then
create (truncating any existing file) and write; other types are skipped. -/
def applyEntry (fs : ExtractedFS) : ArchiveEntry → ExtractedFS
  | .dir name => { fs with dirs := fs.dirs ++ mkdirAllDirs (splitPath name) }
  | .reg name content =>
      let p := splitPath name
      { fs with
          dirs := fs.dirs ++ mkdirAllDirs p.dropLast
          files := fs.files.filter (fun e => e.1 ≠ p) ++ [(p, content)] }
  | .other _ => fs

/-- Apply all tar entries in order. -/
def applyEntries (es : List ArchiveEntry) : ExtractedFS :=
  es.foldl applyEntry ⟨[], []⟩

/-- Content of the extracted file at a component path, if any. -/
def fsLookup (fs : ExtractedFS) (p : List String) : Option Bytes :=
  (fs.files.find? fun e => e.1 = p).map (·.2)

/-- `ExtractContainer containerPath outputPath password` on the container's
byte content.  Mirrors the source order: read header (64 bytes), check the
magic (the version word is read but never compared), derive the key, run
`DecryptStream`, then gzip+tar decode and apply the entries. -/
def extractContainer (P : Prims) (container : Bytes) (password : String) :
    Except CErr ExtractedFS :=
  if container.length < 64 then .error .headerShort
  else
    let magic := container.take 4
    let salt := (container.drop 8).take 32
    let time := u32dec ((container.drop 40).take 4)
    let mem := u32dec ((container.drop 44).take 4)
    let thr := container.getD 48 0
    if magic ≠ [83, 70, 77, 0] then .error .invalidFormat
    else
      let key := P.argon2id password salt time mem thr
      match decryptStream P key (container.drop 64) with
      | none => .error .decryptFailed
      | some plain =>
        match P.packD plain with
        | none => .error .archiveErr
        | some entries => .ok (applyEntries entries)

/-! ## A concrete instantiation of the primitives

Used to evaluate the model on concrete inputs (counterexamples and
witnesses).  The functions are arbitrary but total and computable; the pack
codec is a faithful miniature of gzip+tar: a two-byte magic (`0x1f 0x8b`,
gzip's) followed by a self-delimiting entry encoding, and decoding fails
whenever the magic is absent — exactly the behaviour of `gzip.NewReader`. -/

/-- Length-prefixed string encoding for the toy pack codec. -/
def encStr (s : String) : Bytes :=
  s.toList.length :: s.toList.map Char.toNat

/-- Toy encoding of one archive entry. -/
def encEntry : ArchiveEntry → Bytes
  | .dir n => 0 :: encStr n
  | .reg n c => 1 :: (encStr n ++ (c.length :: c))
  | .other n => 2 :: encStr n

/-- Decode a length-prefixed string; returns the rest of the input. -/
def decStr : Bytes → Option (String × Bytes)
  | [] => none
  | n :: rest =>
      if n ≤ rest.length then
        some (String.mk ((rest.take n).map Char.ofNat), rest.drop n)
      else none

/-- Fuelled decoder for a sequence of toy archive entries. -/
def decEntriesFuel : Nat → Bytes → Option (List ArchiveEntry)
  | _, [] => some []
  | 0, _ :: _ => none
  | fuel + 1, tag :: rest =>
    match tag with
    | 0 => do
        let (n, r) ← decStr rest
        let es ← decEntriesFuel fuel r
        pure (.dir n :: es)
    | 1 => do
        let (n, r) ← decStr rest
        match r with
        | [] => none
        | len :: r2 =>
            if len ≤ r2.length then do
              let es ← decEntriesFuel fuel (r2.drop len)
              pure (.reg n (r2.take len) :: es)
            else none
    | 2 => do
        let (n, r) ← decStr rest
        let es ← decEntriesFuel fuel r
        pure (.other n :: es)
    | _ => none

/-- Toy archive decoding. -/
def decEntries (bs : Bytes) : Option (List ArchiveEntry) :=
  decEntriesFuel bs.length bs

/-- Sum of a byte list (used by the toy hash functions). -/
def byteSum (bs : Bytes) : Nat := bs.foldl (· + ·) 0

/-- The concrete primitive instantiation. -/
def toyPrims : Prims where
  sha256 bs := (List.range 32).map fun i => (byteSum bs + bs.length + i) % 256
  argon2id pw salt t m th :=
    (List.range 32).map fun i =>
      (7 * pw.length + byteSum salt + t + m + th + i) % 256
  ctrKs key nonce i := (byteSum key + byteSum nonce + i) % 256
  gcmSeal _ n p := n ++ p
  gcmOpen _ c := if 12 ≤ c.length then some (c.drop 12) else none
  packC es := 31 :: 139 :: (es.flatMap encEntry)
  packD bs := if bs.take 2 = [31, 139] then decEntries (bs.drop 2) else none
  edPub sk := 0 :: sk
  edSign sk m := sk ++ m
  edVerify pk m s := s == pk.drop 1 ++ m
  x25519 a b := a ++ b

/-! ## Concrete container inputs (spec §8 end-to-end scenario values) -/

/-- A fixed 32-byte salt standing for one CSPRNG output. -/
def demoSalt : Bytes := List.replicate 32 0

/-- A fixed 12-byte stream nonce standing for one CSPRNG output. -/
def demoNonce : Bytes := List.replicate 12 0

/-- The single-file source tree of spec §8 scenario 1. -/
def helloTree : FSNode :=
  .file "hello.txt" ("Hello, SecureFileManager!\n".toList.map Char.toNat)

/-- Its container under password `"correct horse"`, Argon2 (3, 65536, 4). -/
def helloContainer : Bytes :=
  createContainer toyPrims helloTree "correct horse" 3 65536 4 demoSalt demoNonce

/-- The directory source tree of spec §8 scenario 2:
`{a.txt: "A", sub/b.txt: "BB"}` under directory `d`. -/
def treeDemo : FSNode :=
  .dir "d" [.file "a.txt" [65], .dir "sub" [.file "b.txt" [66, 66]]]

/-- Its container under password `"p"`. -/
def treeContainer : Bytes :=
  createContainer toyPrims treeDemo "p" 3 65536 4 demoSalt demoNonce

/-- A well-formed container whose header carries version 2 (unsupported:
the source only ever writes version 1), with valid magic and an otherwise
valid body for password `"p"`. -/
def ver2Container : Bytes :=
  [83, 70, 77, 0] ++ u32le 2 ++ demoSalt ++ u32le 3 ++ u32le 65536 ++ [4] ++
    List.replicate 15 0 ++
    encryptStream toyPrims (toyPrims.argon2id "p" demoSalt 3 65536 4) demoNonce
      (toyPrims.packC (walkEntries (.file "f" [72, 105])))

/-- Modelled from the spec: "Tar entry names are relative paths rooted at
the source's base name (a single file produces one entry named `basename`;
a directory produces `dirname/...` entries)" — the archive `CreateContainer`
is specified to build, for comparison with `walkEntries`. -/
def specEntriesAux (base : String) : FSNode → List ArchiveEntry
  | .file n c => [.reg (base ++ "/" ++ n) c]
  | .dir n cs => .dir (base ++ "/" ++ n) :: goChildren (base ++ "/" ++ n) cs
where
  goChildren (b : String) : List FSNode → List ArchiveEntry
    | [] => []
    | t :: ts => specEntriesAux b t ++ goChildren b ts

/-- Modelled from the spec: top-level entry names are rooted at the base
name of the source path. -/
def specEntries : FSNode → List ArchiveEntry
  | .file n c => [.reg n c]
  | .dir n cs => .dir n :: goChildren n cs
where
  goChildren (b : String) : List FSNode → List ArchiveEntry
    | [] => []
    | t :: ts => specEntriesAux b t ++ goChildren b ts

/-! ## AirDrop data model (`protocol.go`) -/

/-- `FileMetadata` (JSON `{name, size, mime}`); `size` is a Go `int64`. -/
structure FileMetadata where
  name : String
  size : Int
  mime : String
deriving DecidableEq, Repr

/-- `HandshakeRequest`.  `Signature` is a Go `[]byte` whose `nil` value
(serialized as JSON `null`) is modelled as `none`. -/
structure HandshakeRequest where
  deviceName : String
  deviceFingerprint : String
  ephemeralPubKey : Bytes
  fileMetadata : FileMetadata
  signature : Option Bytes
deriving DecidableEq, Repr

/-- `HandshakeResponse`. -/
structure HandshakeResponse where
  accepted : Bool
  ephemeralPubKey : Option Bytes
  sessionID : Option String
  message : String
deriving DecidableEq, Repr

/-- `ChunkMetadata` (the `X-Chunk-Metadata` header, parsed).  `index`,
`total` and `size` are Go `int`s; `checksum` is the lowercase-hex SHA-256
string. -/
structure ChunkMetadata where
  index : Int
  total : Int
  size : Int
  checksum : String
  sessionID : String
deriving DecidableEq, Repr

/-- `CalculateChunkChecksum`: lowercase hex of SHA-256. -/
def calculateChunkChecksum (P : Prims) (data : Bytes) : String :=
  hexEncode (P.sha256 data)

/-! ## Device identity (`identity.go`) -/

/-- `DeviceIdentity`. -/
structure DeviceIdentity where
  publicKey : Bytes
  privateKey : Bytes
  fingerprint : String
deriving DecidableEq, Repr

/-- The formatting loop of `generateFingerprint`: over the hex string `s`
(as characters), `i` steps by 2 from 0; each pass appends `":"` when
`i > 0`, then `s[i:i+2]`, and breaks after the pass with `i >= 30`
("first 16 bytes only"). -/
def fpLoop (s : List Char) (i : Nat) (acc : List Char) : List Char :=
  if i < s.length then
    let acc2 := if 0 < i then acc ++ [':'] else acc
    let acc3 := acc2 ++ (s.drop i).take 2
    if 30 ≤ i then acc3
    else fpLoop s (i + 2) acc3
  else acc
termination_by s.length - i
decreasing_by simp_wf; omega

/-- `generateFingerprint pubKey`: format `hex.EncodeToString(sha256 pub)`
with the loop above. -/
def generateFingerprint (P : Prims) (pubKey : Bytes) : String :=
  String.mk (fpLoop ((P.sha256 pubKey).flatMap byteHex) 0 [])

/-- The load path of `LoadOrGenerateIdentity`: both key files exist; the
fingerprint is recomputed from the public-key file's bytes. -/
def loadIdentity (P : Prims) (pubKeyData privKeyData : Bytes) : DeviceIdentity :=
  { publicKey := pubKeyData
    privateKey := privKeyData
    fingerprint := generateFingerprint P pubKeyData }

/-- Modelled from the spec: "lowercase hex of the first 16 bytes with `:`
between every pair" — join character chunks with `':'` separators. -/
def joinColon : List (List Char) → List Char
  | [] => []
  | [x] => x
  | x :: xs => x ++ ':' :: joinColon xs

/-- Modelled from the spec: the fingerprint rendering of a hash. -/
def specFingerprintRender (hash : Bytes) : String :=
  String.mk (joinColon ((hash.take 16).map byteHex))

/-- `identity.Sign`. -/
def identitySign (P : Prims) (id : DeviceIdentity) (data : Bytes) : Bytes :=
  P.edSign id.privateKey data

/-- `VerifySignature`. -/
def verifySignature (P : Prims) (pubKey data signature : Bytes) : Bool :=
  P.edVerify pubKey data signature

/-- `CreateHandshakeRequest`: build the request with its signature field
still `nil`, serialize it (`json.Marshal`, abstracted as `marshalHR`), sign
the serialization, then store the signature in the request. -/
def createHandshakeRequest (P : Prims) (marshalHR : HandshakeRequest → Bytes)
    (identity : DeviceIdentity) (deviceName : String)
    (ephemeralPubKey : Bytes) (metadata : FileMetadata) : HandshakeRequest :=
  let req : HandshakeRequest :=
    { deviceName := deviceName
      deviceFingerprint := identity.fingerprint
      ephemeralPubKey := ephemeralPubKey
      fileMetadata := metadata
      signature := none }
  let data := marshalHR req
  { req with signature := some (identitySign P identity data) }

/-- `VerifyHandshakeRequest`: set the signature field to `nil`, serialize,
and verify the saved signature over that serialization (`ed25519.Verify`
of a `nil` signature is `false`, modelled by verifying the empty string). -/
def verifyHandshakeRequest (P : Prims) (marshalHR : HandshakeRequest → Bytes)
    (req : HandshakeRequest) (pubKey : Bytes) : Bool :=
  let data := marshalHR { req with signature := none }
  verifySignature P pubKey data (req.signature.getD [])

/-! ## Secure transfer server (`secure_server.go`) -/

/-- `TransferSession` (receiver side).  `ReceivedChunks map[int]bool` is
modelled as the finite set of indexes mapped to `true`. -/
structure TransferSession where
  sessionID : String
  senderName : String
  fingerprint : String
  metaName : String
  metaSize : Int
  sessionKey : Bytes
  totalChunks : Int
  receivedChunks : Finset Int
  filePath : String
deriving DecidableEq

/-- Server state: the session table (`map[string]*TransferSession`), the
log of positional writes `(path, offset, bytes)` performed with
`File.WriteAt`, and the list of session ids whose output file has been
closed. -/
structure SState where
  sessions : String → Option TransferSession
  writes : List (String × Int × Bytes)
  closedSessions : List String

/-- A `/chunk` response: either an `http.Error` status or a `ChunkAck`
(whose `error` field is `""` when absent). -/
inductive ChunkResp where
  | httpErr (code : Nat) (msg : String)
  | ack (index : Int) (sessionID : String) (success : Bool) (errMsg : String)
deriving DecidableEq, Repr

/-- `CHUNK_SIZE = 4 * 1024 * 1024`. -/
def chunkSize : Int := 4194304

/-- Reduce an integer to the two's-complement `int64` range
`[-2^63, 2^63)`, as a Go `int64` multiplication wraps. -/
def wrap64 (n : Int) : Int := (n + 2 ^ 63) % 2 ^ 64 - 2 ^ 63

/-- `handleChunk`: look up the session, decrypt the body, compare the
SHA-256 of the plaintext with the declared checksum, `WriteAt` the
plaintext at `int64(index) * 4MiB` — a wrapping 64-bit product; a negative
(wrapped) offset makes `WriteAt` fail — mark the index received, ACK
success, and on `|received| == total_chunks` close the file and drop the
session.  No bound on `index` is checked. -/
def handleChunk (P : Prims) (st : SState) (md : ChunkMetadata) (body : Bytes) :
    SState × ChunkResp :=
  match st.sessions md.sessionID with
  | none => (st, .httpErr 400 "Invalid session")
  | some sess =>
    match P.gcmOpen sess.sessionKey body with
    | none => (st, .httpErr 500 "Failed to decrypt chunk")
    | some plain =>
      if hexEncode (P.sha256 plain) ≠ md.checksum then
        (st, .ack md.index md.sessionID false "Checksum mismatch")
      else
        let offset := wrap64 (md.index * chunkSize)
        if offset < 0 then
          (st, .ack md.index md.sessionID false "Failed to write chunk")
        else
          let sess2 :=
            { sess with receivedChunks := insert md.index sess.receivedChunks }
          let st2 : SState :=
            { st with
                sessions := fun x =>
                  if x = md.sessionID then some sess2 else st.sessions x
                writes := st.writes ++ [(sess.filePath, offset, plain)] }
          if (sess2.receivedChunks.card : Int) = sess.totalChunks then
            ({ st2 with
                sessions := fun x =>
                  if x = md.sessionID then none else st2.sessions x
                closedSessions := st2.closedSessions ++ [md.sessionID] },
             .ack md.index md.sessionID true "")
          else (st2, .ack md.index md.sessionID true "")

/-- The exact-rational model of Go `float64` for the values the handlers
produce: `0/0` is NaN and `k/0` (k > 0) is `+Inf`; finite quotients are
kept exact. -/
inductive GoFloat where
  | nan
  | posInf
  | negInf
  | fin (q : ℚ)
deriving DecidableEq, Repr

/-- `float64(a) / float64(b)` for integers `a`, `b`. -/
def goDiv (a b : Int) : GoFloat :=
  if b = 0 then (if a = 0 then .nan else if 0 < a then .posInf else .negInf)
  else .fin ((a : ℚ) / (b : ℚ))

/-- `x * 100` on the float model. -/
def goMul100 : GoFloat → GoFloat
  | .nan => .nan
  | .posInf => .posInf
  | .negInf => .negInf
  | .fin q => .fin (q * 100)

/-- `TransferStatus`. -/
structure TransferStatus where
  sessionID : String
  totalChunks : Int
  receivedChunks : Finset Int
  progress : GoFloat
  canResume : Bool
deriving DecidableEq

/-- A `/status` response. -/
inductive StatusResp where
  | httpErr (code : Nat) (msg : String)
  | ok (ts : TransferStatus)
deriving DecidableEq

/-- `handleStatus`: look up the session and report
`progress = float64(len(received))/float64(total_chunks) * 100`,
`can_resume = true`.  The state is unchanged. -/
def handleStatus (st : SState) (sid : String) : SState × StatusResp :=
  match st.sessions sid with
  | none => (st, .httpErr 404 "Session not found")
  | some sess =>
    (st, .ok
      { sessionID := sid
        totalChunks := sess.totalChunks
        receivedChunks := sess.receivedChunks
        progress := goMul100 (goDiv sess.receivedChunks.card sess.totalChunks)
        canResume := true })

/-- `totalChunks` as computed by the server's `handleHandshake`
(`secure_server.go:152`): Go truncated `int64` division with a +1 carry on
a nonzero remainder. -/
def serverTotalChunks (size : Int) : Int :=
  let t := size.tdiv chunkSize
  if size.tmod chunkSize ≠ 0 then t + 1 else t

/-- `totalChunks` as computed by the client's `SendFile`
(`secure_client.go:102`). -/
def clientTotalChunks (size : Int) : Int :=
  let t := size.tdiv chunkSize
  if size.tmod chunkSize ≠ 0 then t + 1 else t

/-- `curve25519.Basepoint` (9 followed by 31 zero bytes). -/
def basepoint : Bytes := 9 :: List.replicate 31 0

/-- `handleHandshake` on an accept decision, with the CSPRNG outputs
(ephemeral private key, session UUID) explicit.  On accept it derives
`session_key = SHA256(X25519(own_priv, peer_eph_pub))`, computes
`total_chunks`, creates the output file at `downloadDir/<name>`, stores the
session, and answers `{accepted, ephemeral_pubkey, session_id}`. -/
def handleHandshake (P : Prims) (st : SState) (req : HandshakeRequest)
    (accepted : Bool) (ephPriv : Bytes) (sid : String) (downloadDir : String) :
    SState × HandshakeResponse :=
  if ¬accepted then
    (st, { accepted := false, ephemeralPubKey := none, sessionID := none,
           message := "Transfer rejected by user" })
  else
    let ephPub := P.x25519 ephPriv basepoint
    let sessionKey := P.sha256 (P.x25519 ephPriv req.ephemeralPubKey)
    let sess : TransferSession :=
      { sessionID := sid
        senderName := req.deviceName
        fingerprint := req.deviceFingerprint
        metaName := req.fileMetadata.name
        metaSize := req.fileMetadata.size
        sessionKey := sessionKey
        totalChunks := serverTotalChunks req.fileMetadata.size
        receivedChunks := ∅
        filePath := downloadDir ++ "/" ++ req.fileMetadata.name }
    ({ st with sessions := fun x => if x = sid then some sess else st.sessions x },
     { accepted := true, ephemeralPubKey := some ephPub, sessionID := some sid,
       message := "Transfer accepted" })

/-- A request addressed to the running server's `/chunk` or `/status`
endpoint. -/
inductive AirReq where
  | chunk (md : ChunkMetadata) (body : Bytes)
  | status (sid : String)

/-- The state transition of one request. -/
def stepReq (P : Prims) (st : SState) : AirReq → SState
  | .chunk md body => (handleChunk P st md body).1
  | .status sid => (handleStatus st sid).1

/-- The state after a sequence of `/chunk` and `/status` requests. -/
def runReqs (P : Prims) (st : SState) (reqs : List AirReq) : SState :=
  reqs.foldl (stepReq P) st

/-! ## Concrete server states (for counterexamples and witnesses) -/

/-- A concrete session: 3 chunks expected, nothing received yet. -/
def demoSession : TransferSession :=
  { sessionID := "S"
    senderName := "alice"
    fingerprint := "fp"
    metaName := "f"
    metaSize := 9000000
    sessionKey := List.replicate 32 0
    totalChunks := 3
    receivedChunks := ∅
    filePath := "dl/f" }

/-- A server state holding only `demoSession` under id `"S"`. -/
def demoState : SState :=
  { sessions := fun x => if x = "S" then some demoSession else none
    writes := []
    closedSessions := [] }

/-- A chunk body that decrypts (under `toyPrims`) to `[1, 2, 3]`. -/
def demoBody : Bytes := List.replicate 12 0 ++ [1, 2, 3]

/-- Metadata for an out-of-range index 5 on the 3-chunk `demoSession`,
with the correct checksum for `[1, 2, 3]`. -/
def demoMeta5 : ChunkMetadata :=
  { index := 5, total := 3, size := 3
    checksum := hexEncode (toyPrims.sha256 [1, 2, 3]), sessionID := "S" }

/-- A concrete zero-chunk session (as created by a handshake whose
`file_metadata.size` is 0). -/
def zSession : TransferSession :=
  { sessionID := "Z", senderName := "a", fingerprint := "f", metaName := "e",
    metaSize := 0, sessionKey := List.replicate 32 0, totalChunks := 0,
    receivedChunks := ∅, filePath := "dl/e" }

/-- A server state holding only `zSession` under id `"Z"`. -/
def zState : SState :=
  { sessions := fun x => if x = "Z" then some zSession else none
    writes := []
    closedSessions := [] }

/-! ## Claims C1–C3 -/

/-- **C1** (code bug).  Extracting `helloContainer` with the wrong password
`"Tr0ub4dor"` fails with the gzip/tar error (`CErr.archiveErr`, the
"failed to create gzip reader" path), not with `CErr.decryptFailed` (the
"failed to decrypt data (wrong password?)" error that presents
AuthenticationFailed).  The container body is encrypted with the CTR
streaming cipher, which has no authentication: `DecryptStream` cannot fail
on a wrong key, so the wrong-password failure is misreported as an archive
format error — contradicting the claim (and the repository's own
`ENCRYPTION.md`, which promises a GCM auth tag on the container body). -/
theorem c1_wrong_password_error_not_auth :
    ("Tr0ub4dor" : String) ≠ "correct horse" ∧
    extractContainer toyPrims helloContainer "Tr0ub4dor" =
      .error CErr.archiveErr ∧
    CErr.archiveErr ≠ CErr.decryptFailed := by
  refine ⟨by decide, by rfl, by decide⟩

/-- **C2** (code bug).  Round-tripping the directory tree
`d/{a.txt: "A", sub/b.txt: "BB"}` does **not** reproduce the tree:
because `CreateContainer` calls `addToArchive` with `baseDir = ""`, every
tar entry is named by its base name only, so extraction writes `a.txt` and
`b.txt` at the top level (plus empty directories `d` and `sub`) instead of
`d/a.txt` and `d/sub/b.txt`.  The spec's intended archive (`specEntries`)
would put `a.txt` under `d/`.  (The single-file case round-trips; the
directory case loses the structure.) -/
theorem c2_directory_roundtrip_flattened :
    extractContainer toyPrims treeContainer "p" =
      .ok ⟨[["d"], ["sub"]], [(["a.txt"], [65]), (["b.txt"], [66, 66])]⟩ ∧
    fsLookup (applyEntries (walkEntries treeDemo)) ["d", "a.txt"] = none ∧
    fsLookup (applyEntries (specEntries treeDemo)) ["d", "a.txt"] = some [65] := by
  refine ⟨by rfl, by rfl, by rfl⟩

/-- **C3** counterexample.  A container with valid magic but version 2 — a
version the source never writes (it only writes 1) — is **not** rejected:
extraction runs to completion, because `ExtractContainer` never compares
the header's version field.  This refutes the claim that an unsupported
version is rejected with an invalid-format error before key derivation. -/
theorem c3_counterexample_version2_extracts :
    u32dec ((ver2Container.drop 4).take 4) = 2 ∧
    extractContainer toyPrims ver2Container "p" =
      .ok ⟨[], [(["f"], [72, 105])]⟩ := by
  refine ⟨by rfl, by rfl⟩

/-- **C3** (corrected).  `ExtractContainer` rejects with the invalid-format
error exactly when the 4-byte magic differs from `SFM\x00` (given the
64-byte header is readable), and that rejection is decided before key
derivation: the result is unchanged under replacing the `argon2id`
primitive by any function whatsoever.  The version field plays no part. -/
theorem c3_magic_only_rejection (P : Prims) (c : Bytes) (pw : String)
    (hlen : 64 ≤ c.length) :
    (c.take 4 ≠ [83, 70, 77, 0] →
      extractContainer P c pw = .error CErr.invalidFormat ∧
      ∀ g, extractContainer { P with argon2id := g } c pw =
        .error CErr.invalidFormat) ∧
    (c.take 4 = [83, 70, 77, 0] →
      extractContainer P c pw ≠ .error CErr.invalidFormat) := by
  constructor
  · intro hm
    constructor
    · simp [extractContainer, Nat.not_lt.mpr hlen, hm]
    · intro g
      simp [extractContainer, Nat.not_lt.mpr hlen, hm]
  · intro hm
    simp only [extractContainer, Nat.not_lt.mpr hlen, if_false, hm]
    simp only [ne_eq, not_true_eq_false, if_false]
    cases hdec : decryptStream P
        (P.argon2id pw ((c.drop 8).take 32)
          (u32dec ((c.drop 40).take 4)) (u32dec ((c.drop 44).take 4))
          (c.getD 48 0)) (c.drop 64) with
    | none => simp
    | some plain => cases hpack : P.packD plain <;> simp [hpack]

/-- Witness for `c3_magic_only_rejection` at an all-zero 64-byte container
(the magic is wrong there). -/
theorem c3_magic_only_rejection_witness :
    64 ≤ (List.replicate 64 0 : Bytes).length ∧
    ((List.replicate 64 0 : Bytes).take 4 ≠ [83, 70, 77, 0] →
      extractContainer toyPrims (List.replicate 64 0) "p" =
        .error CErr.invalidFormat ∧
      ∀ g, extractContainer { toyPrims with argon2id := g }
        (List.replicate 64 0) "p" = .error CErr.invalidFormat) ∧
    ((List.replicate 64 0 : Bytes).take 4 = [83, 70, 77, 0] →
      extractContainer toyPrims (List.replicate 64 0) "p" ≠
        .error CErr.invalidFormat) :=
  ⟨by decide, (c3_magic_only_rejection toyPrims (List.replicate 64 0) "p"
    (by decide)).1, (c3_magic_only_rejection toyPrims (List.replicate 64 0) "p"
    (by decide)).2⟩

/-! ## Claim C4 -/

/-- **C4** counterexample.  On a known 3-chunk session, a `/chunk` request
with index 5 — outside `[0, 3)` — whose body decrypts and whose checksum
matches is answered with a success ACK, written at offset `5 * 4MiB`, and
marked received: the server never checks the index range. -/
theorem c4_counterexample_out_of_range_accepted :
    (handleChunk toyPrims demoState demoMeta5 demoBody).2 =
      .ack 5 "S" true "" ∧
    (handleChunk toyPrims demoState demoMeta5 demoBody).1.writes =
      [("dl/f", 5 * chunkSize, [1, 2, 3])] ∧
    (handleChunk toyPrims demoState demoMeta5 demoBody).1.sessions "S" =
      some { demoSession with receivedChunks := {5} } ∧
    ¬(demoMeta5.index < demoSession.totalChunks) := by
  refine ⟨by decide, by decide, by decide, by decide⟩

/-- **C4** (corrected).  `handleChunk` validates no index range at all: on
a known session, a request whose body decrypts and whose checksum matches
is adjudicated solely by the sign of the wrapping 64-bit offset
`int64(index) * 4MiB`.  When that wrapped offset is nonnegative the chunk
is written at it, marked received, and answered with a success ACK — for
every index in `[0, 2^41)` (which covers every index `≥ total_chunks` of
any real transfer) the wrapped offset is just `index * 4MiB`.  When the
wrapped offset is negative (all small negative indexes, but also e.g.
index `2^41`, whose product wraps to `-2^63`) the positional write fails
and a failure ACK is returned without writing or marking; index `2^42`
wraps to offset 0, silently overwriting chunk 0. -/
theorem c4_no_index_range_check (P : Prims) (st : SState)
    (md : ChunkMetadata) (body : Bytes) (sess : TransferSession)
    (plain : Bytes)
    (hs : st.sessions md.sessionID = some sess)
    (hd : P.gcmOpen sess.sessionKey body = some plain)
    (hc : hexEncode (P.sha256 plain) = md.checksum) :
    (0 ≤ wrap64 (md.index * chunkSize) →
      (handleChunk P st md body).2 = .ack md.index md.sessionID true "" ∧
      (handleChunk P st md body).1.writes =
        st.writes ++ [(sess.filePath, wrap64 (md.index * chunkSize), plain)] ∧
      (((insert md.index sess.receivedChunks).card : Int) = sess.totalChunks ∧
          (handleChunk P st md body).1.sessions md.sessionID = none ∨
        ((insert md.index sess.receivedChunks).card : Int) ≠ sess.totalChunks ∧
          (handleChunk P st md body).1.sessions md.sessionID =
            some { sess with
                    receivedChunks := insert md.index sess.receivedChunks })) ∧
    (wrap64 (md.index * chunkSize) < 0 →
      handleChunk P st md body =
        (st, .ack md.index md.sessionID false "Failed to write chunk")) ∧
    (∀ i : Int, 0 ≤ i → i < 2 ^ 41 → wrap64 (i * chunkSize) = i * chunkSize) ∧
    wrap64 (2 ^ 41 * chunkSize) < 0 ∧
    wrap64 (2 ^ 42 * chunkSize) = 0 := by
  refine ⟨?_, ?_, ?_, by decide, by decide⟩
  · intro hposw
    have hoff : ¬(wrap64 (md.index * chunkSize) < 0) := not_lt.mpr hposw
    by_cases hfull :
        ((insert md.index sess.receivedChunks).card : Int) = sess.totalChunks
    · refine ⟨?_, ?_, Or.inl ⟨hfull, ?_⟩⟩ <;>
        simp [handleChunk, hs, hd, not_not.mpr hc, hoff, hfull]
    · refine ⟨?_, ?_, Or.inr ⟨hfull, ?_⟩⟩ <;>
        simp [handleChunk, hs, hd, not_not.mpr hc, hoff, hfull]
  · intro hoff
    simp [handleChunk, hs, hd, not_not.mpr hc, hoff]
  · intro i h0 hlt
    have hup : i * chunkSize < 2 ^ 63 := by
      have h1 : i * chunkSize < 2 ^ 41 * chunkSize :=
        mul_lt_mul_of_pos_right hlt (by norm_num [chunkSize])
      have h2 : (2 : Int) ^ 41 * chunkSize = 2 ^ 63 := by
        norm_num [chunkSize]
      omega
    have hlo : (0 : Int) ≤ i * chunkSize :=
      mul_nonneg h0 (by norm_num [chunkSize])
    unfold wrap64
    rw [Int.emod_eq_of_lt (by omega) (by omega)]
    ring

/-- Witness for `c4_no_index_range_check` at the concrete out-of-range
request (index 5 on a 3-chunk session). -/
theorem c4_no_index_range_check_witness :
    demoState.sessions demoMeta5.sessionID = some demoSession ∧
    toyPrims.gcmOpen demoSession.sessionKey demoBody = some [1, 2, 3] ∧
    hexEncode (toyPrims.sha256 [1, 2, 3]) = demoMeta5.checksum ∧
    ((0 ≤ wrap64 (demoMeta5.index * chunkSize) →
      (handleChunk toyPrims demoState demoMeta5 demoBody).2 =
        .ack demoMeta5.index demoMeta5.sessionID true "" ∧
      (handleChunk toyPrims demoState demoMeta5 demoBody).1.writes =
        demoState.writes ++
          [(demoSession.filePath, wrap64 (demoMeta5.index * chunkSize),
            [1, 2, 3])] ∧
      (((insert demoMeta5.index demoSession.receivedChunks).card : Int) =
            demoSession.totalChunks ∧
          (handleChunk toyPrims demoState demoMeta5 demoBody).1.sessions
            demoMeta5.sessionID = none ∨
        ((insert demoMeta5.index demoSession.receivedChunks).card : Int) ≠
            demoSession.totalChunks ∧
          (handleChunk toyPrims demoState demoMeta5 demoBody).1.sessions
            demoMeta5.sessionID =
            some { demoSession with
                    receivedChunks :=
                      insert demoMeta5.index demoSession.receivedChunks })) ∧
    (wrap64 (demoMeta5.index * chunkSize) < 0 →
      handleChunk toyPrims demoState demoMeta5 demoBody =
        (demoState,
          .ack demoMeta5.index demoMeta5.sessionID false
            "Failed to write chunk")) ∧
    (∀ i : Int, 0 ≤ i → i < 2 ^ 41 → wrap64 (i * chunkSize) = i * chunkSize) ∧
    wrap64 (2 ^ 41 * chunkSize) < 0 ∧
    wrap64 (2 ^ 42 * chunkSize) = 0) :=
  ⟨by decide, by decide, by decide,
    c4_no_index_range_check toyPrims demoState demoMeta5 demoBody demoSession
      [1, 2, 3] (by decide) (by decide) (by decide)⟩

/-! ## Claim C5 -/

/-- **C5** (confirmed).  On a known session, a checksum mismatch after
decryption is answered with the ACK `{success: false, error: "Checksum
mismatch"}` and the state — in particular the file-write log — is
untouched; and across all cases of `handleChunk`, every write it performs
carries a plaintext whose SHA-256 hex equals the checksum declared in the
metadata. -/
theorem c5_checksum_mismatch_rejected (P : Prims) (st : SState)
    (md : ChunkMetadata) (body : Bytes) (sess : TransferSession)
    (plain : Bytes)
    (hs : st.sessions md.sessionID = some sess)
    (hd : P.gcmOpen sess.sessionKey body = some plain) :
    (hexEncode (P.sha256 plain) ≠ md.checksum →
      handleChunk P st md body =
        (st, .ack md.index md.sessionID false "Checksum mismatch")) ∧
    ∀ w ∈ (handleChunk P st md body).1.writes,
      w ∈ st.writes ∨
        (w = (sess.filePath, wrap64 (md.index * chunkSize), plain) ∧
          hexEncode (P.sha256 plain) = md.checksum) := by
  constructor
  · intro hne
    simp [handleChunk, hs, hd, hne]
  · intro w hw
    by_cases hck : hexEncode (P.sha256 plain) = md.checksum
    · by_cases hoff : wrap64 (md.index * chunkSize) < 0
      · simp [handleChunk, hs, hd, not_not.mpr hck, hoff] at hw
        exact Or.inl hw
      · by_cases hfull :
            ((insert md.index sess.receivedChunks).card : Int) =
              sess.totalChunks
        · simp [handleChunk, hs, hd, not_not.mpr hck, hoff, hfull] at hw
          rcases hw with hw | hw
          · exact Or.inl hw
          · exact Or.inr ⟨by simp [hw], hck⟩
        · simp [handleChunk, hs, hd, not_not.mpr hck, hoff, hfull] at hw
          rcases hw with hw | hw
          · exact Or.inl hw
          · exact Or.inr ⟨by simp [hw], hck⟩
    · simp [handleChunk, hs, hd, hck] at hw
      exact Or.inl hw

/-- Witness for `c5_checksum_mismatch_rejected`: a request on the concrete
session whose declared checksum (`"00"`) differs from the checksum of the
decrypted body. -/
theorem c5_checksum_mismatch_rejected_witness :
    demoState.sessions "S" = some demoSession ∧
    toyPrims.gcmOpen demoSession.sessionKey demoBody = some [1, 2, 3] ∧
    ((hexEncode (toyPrims.sha256 [1, 2, 3]) ≠ "00" →
      handleChunk toyPrims demoState
          { index := 0, total := 3, size := 3, checksum := "00",
            sessionID := "S" } demoBody =
        (demoState, .ack 0 "S" false "Checksum mismatch")) ∧
    ∀ w ∈ (handleChunk toyPrims demoState
        { index := 0, total := 3, size := 3, checksum := "00",
          sessionID := "S" } demoBody).1.writes,
      w ∈ demoState.writes ∨
        (w = (demoSession.filePath, wrap64 (0 * chunkSize), [1, 2, 3]) ∧
          hexEncode (toyPrims.sha256 [1, 2, 3]) = "00")) :=
  ⟨by decide, by decide,
    c5_checksum_mismatch_rejected toyPrims demoState
      { index := 0, total := 3, size := 3, checksum := "00", sessionID := "S" }
      demoBody demoSession [1, 2, 3] (by decide) (by decide)⟩

/-! ## Claim C10 -/

/-- **C10** (confirmed).  Re-posting a chunk whose index the (still active)
session has already marked received, with decryptable body and matching
checksum, is idempotent on the session state: the server replies with a
success ACK again, the session's received set (hence its cardinality) is
unchanged, the completion decision is unchanged (the session stays in the
table, no file is closed), and no other session is affected. -/
theorem c10_duplicate_chunk_idempotent (P : Prims) (st : SState)
    (md : ChunkMetadata) (body : Bytes) (sess : TransferSession)
    (plain : Bytes)
    (hs : st.sessions md.sessionID = some sess)
    (hd : P.gcmOpen sess.sessionKey body = some plain)
    (hc : hexEncode (P.sha256 plain) = md.checksum)
    (hposw : 0 ≤ wrap64 (md.index * chunkSize))
    (hmem : md.index ∈ sess.receivedChunks)
    (hactive : (sess.receivedChunks.card : Int) < sess.totalChunks) :
    (handleChunk P st md body).2 = .ack md.index md.sessionID true "" ∧
    (handleChunk P st md body).1.sessions md.sessionID = some sess ∧
    (∀ x, x ≠ md.sessionID →
      (handleChunk P st md body).1.sessions x = st.sessions x) ∧
    (handleChunk P st md body).1.closedSessions = st.closedSessions := by
  have hins : insert md.index sess.receivedChunks = sess.receivedChunks :=
    Finset.insert_eq_self.mpr hmem
  have hoff : ¬(wrap64 (md.index * chunkSize) < 0) := not_lt.mpr hposw
  have hfull :
      ¬(((insert md.index sess.receivedChunks).card : Int) =
        sess.totalChunks) := by
    rw [hins]; exact ne_of_lt hactive
  have hfull2 : ¬((sess.receivedChunks.card : Int) = sess.totalChunks) :=
    ne_of_lt hactive
  refine ⟨?_, ?_, ?_, ?_⟩
  · simp [handleChunk, hs, hd, not_not.mpr hc, hoff, hfull, hfull2]
  · simp [handleChunk, hs, hd, not_not.mpr hc, hoff, hfull, hfull2, hins]
  · intro x hx
    simp [handleChunk, hs, hd, not_not.mpr hc, hoff, hfull, hfull2, hx]
  · simp [handleChunk, hs, hd, not_not.mpr hc, hoff, hfull, hfull2]

/-- Witness for `c10_duplicate_chunk_idempotent`: index 0 re-posted on a
session that has already received chunk 0 of 3. -/
theorem c10_duplicate_chunk_idempotent_witness :
    ({ demoState with
        sessions := fun x =>
          if x = "S" then
            some { demoSession with receivedChunks := {0} } else none } :
      SState).sessions "S" =
        some { demoSession with receivedChunks := {0} } ∧
    toyPrims.gcmOpen demoSession.sessionKey demoBody = some [1, 2, 3] ∧
    hexEncode (toyPrims.sha256 [1, 2, 3]) =
      hexEncode (toyPrims.sha256 [1, 2, 3]) ∧
    (0 : Int) ≤ wrap64 (0 * chunkSize) ∧
    (0 : Int) ∈ ({0} : Finset Int) ∧
    ((({0} : Finset Int).card : Int) <
      ({ demoSession with receivedChunks := ({0} : Finset Int) } :
        TransferSession).totalChunks) ∧
    (handleChunk toyPrims
        { demoState with
          sessions := fun x =>
            if x = "S" then
              some { demoSession with receivedChunks := {0} } else none }
        { index := 0, total := 3, size := 3,
          checksum := hexEncode (toyPrims.sha256 [1, 2, 3]),
          sessionID := "S" } demoBody).2 = .ack 0 "S" true "" := by
  refine ⟨by decide, by decide, by decide, by decide, by decide, by decide, ?_⟩
  exact (c10_duplicate_chunk_idempotent toyPrims
    { demoState with
      sessions := fun x =>
        if x = "S" then
          some { demoSession with receivedChunks := {0} } else none }
    { index := 0, total := 3, size := 3,
      checksum := hexEncode (toyPrims.sha256 [1, 2, 3]), sessionID := "S" }
    demoBody { demoSession with receivedChunks := {0} } [1, 2, 3]
    (by decide) (by decide) (by decide) (by decide) (by decide) (by decide)).1

/-! ## Claim C6 -/

/-- **C6** (confirmed).  For every nonnegative file size, the server's
`handleHandshake` and the client's `SendFile` compute the same
`total_chunks`, and it equals `⌈size / 4194304⌉`. -/
theorem c6_total_chunks_agree (s : Int) (h : 0 ≤ s) :
    serverTotalChunks s = clientTotalChunks s ∧
    serverTotalChunks s = ⌈(s : ℚ) / (chunkSize : ℚ)⌉ := by
  refine ⟨rfl, ?_⟩
  have hc : (0 : Int) < chunkSize := by norm_num [chunkSize]
  have hcq : (0 : ℚ) < ((chunkSize : Int) : ℚ) := by exact_mod_cast hc
  have hdr : chunkSize * (s / chunkSize) + s % chunkSize = s :=
    Int.ediv_add_emod s chunkSize
  have hr0 : 0 ≤ s % chunkSize := Int.emod_nonneg s (ne_of_gt hc)
  have hrlt : s % chunkSize < chunkSize := Int.emod_lt_of_pos s hc
  have hdrq : ((chunkSize : Int) : ℚ) * ((s / chunkSize : Int) : ℚ) +
      ((s % chunkSize : Int) : ℚ) = (s : ℚ) := by exact_mod_cast hdr
  unfold serverTotalChunks
  rw [Int.tdiv_eq_ediv h (le_of_lt hc), Int.tmod_eq_emod h (le_of_lt hc)]
  by_cases hr : s % chunkSize = 0
  · rw [if_neg (not_not_intro hr)]
    symm
    rw [Int.ceil_eq_iff]
    have hrq : ((s % chunkSize : Int) : ℚ) = 0 := by exact_mod_cast hr
    constructor
    · rw [lt_div_iff₀ hcq]
      nlinarith [hdrq, hrq]
    · rw [div_le_iff₀ hcq]
      nlinarith [hdrq, hrq]
  · rw [if_pos hr]
    symm
    rw [Int.ceil_eq_iff]
    have hrq : (0 : ℚ) < ((s % chunkSize : Int) : ℚ) := by
      exact_mod_cast lt_of_le_of_ne hr0 (Ne.symm hr)
    have hrltq : ((s % chunkSize : Int) : ℚ) < ((chunkSize : Int) : ℚ) := by
      exact_mod_cast hrlt
    constructor
    · rw [lt_div_iff₀ hcq]
      push_cast
      nlinarith [hdrq]
    · rw [div_le_iff₀ hcq]
      push_cast
      nlinarith [hdrq]

/-- Witness for `c6_total_chunks_agree` at the 10-byte file of spec §8
scenario 3. -/
theorem c6_total_chunks_agree_witness :
    (0 : Int) ≤ 10 ∧
    (serverTotalChunks 10 = clientTotalChunks 10 ∧
      serverTotalChunks 10 = ⌈((10 : Int) : ℚ) / (chunkSize : ℚ)⌉) :=
  ⟨by decide, c6_total_chunks_agree 10 (by decide)⟩

/-! ## Claim C7: fingerprint formatting -/

/-- Unfolding of the spec-side renderer: joining a head chunk with
colon-prefixed tail chunks. -/
theorem joinColon_cons (c : List Char) (cs : List (List Char)) :
    joinColon (c :: cs) = c ++ cs.flatMap (fun x => ':' :: x) := by
  induction cs generalizing c with
  | nil => simp [joinColon]
  | cons d ds ih => simp [joinColon, ih d]

/-- The fingerprint loop from position `30 - 2n` (n ≤ 14) collects the
remaining colon-prefixed two-character chunks up to position 30. -/
theorem fpLoop_countdown (s : List Char) (hlen : 30 < s.length) :
    ∀ n, n ≤ 14 → ∀ acc, fpLoop s (30 - 2 * n) acc =
      acc ++ (List.range (n + 1)).flatMap
        (fun j => ':' :: (s.drop (30 - 2 * n + 2 * j)).take 2) := by
  intro n
  induction n with
  | zero =>
    intro _ acc
    rw [fpLoop]
    simp only [Nat.mul_zero, Nat.sub_zero]
    rw [if_pos hlen, if_pos (by omega : 0 < 30), if_pos (by omega : 30 ≤ 30)]
    rw [show List.range 1 = [0] from rfl]
    simp
  | succ n ih =>
    intro hn acc
    have histep : 30 - 2 * (n + 1) + 2 = 30 - 2 * n := by omega
    rw [fpLoop]
    rw [if_pos (by omega : 30 - 2 * (n + 1) < s.length),
        if_pos (by omega : 0 < 30 - 2 * (n + 1)),
        if_neg (by omega : ¬30 ≤ 30 - 2 * (n + 1))]
    rw [histep, ih (by omega)]
    conv_rhs => rw [List.range_succ_eq_map]
    rw [List.flatMap_cons, List.flatMap_map]
    have hfun : (fun j => ':' :: (List.take 2
          (List.drop (30 - 2 * (n + 1) + 2 * Nat.succ j) s))) =
        (fun j => ':' :: (List.take 2 (List.drop (30 - 2 * n + 2 * j) s))) := by
      funext j
      have : 30 - 2 * (n + 1) + 2 * Nat.succ j = 30 - 2 * n + 2 * j := by omega
      rw [this]
    rw [hfun]
    simp

/-- The full fingerprint loop: head chunk plus 15 colon-prefixed chunks. -/
theorem fpLoop_zero (s : List Char) (hlen : 30 < s.length) :
    fpLoop s 0 [] = s.take 2 ++ (List.range 15).flatMap
      (fun j => ':' :: (s.drop (2 + 2 * j)).take 2) := by
  rw [fpLoop]
  rw [if_pos (by omega : 0 < s.length), if_neg (by omega : ¬0 < 0),
      if_neg (by omega : ¬30 ≤ 0)]
  have h2 : (0 : Nat) + 2 = 30 - 2 * 14 := by omega
  rw [h2, fpLoop_countdown s hlen 14 (by omega)]
  have hfun : (fun j => ':' :: (List.take 2 (List.drop (30 - 2 * 14 + 2 * j) s))) =
      (fun j => ':' :: (List.take 2 (List.drop (2 + 2 * j) s))) := by
    funext j
    have : 30 - 2 * 14 + 2 * j = 2 + 2 * j := by omega
    rw [this]
  rw [hfun]
  simp

/-- Hex expansion doubles the length. -/
theorem flatMap_byteHex_length (bs : Bytes) :
    (bs.flatMap byteHex).length = 2 * bs.length := by
  induction bs with
  | nil => simp
  | cons b bs ih => simp [byteHex, ih]; omega

/-- The two hex characters at position `2k` are the hex of byte `k`. -/
theorem chunk_flatMap_byteHex (bs : Bytes) :
    ∀ k, k < bs.length →
      ((bs.flatMap byteHex).drop (2 * k)).take 2 = byteHex (bs.getD k 0) := by
  induction bs with
  | nil => intro k hk; simp at hk
  | cons b bs ih =>
    intro k hk
    cases k with
    | zero => simp [byteHex]
    | succ k =>
      have h1 : 2 * (k + 1) = 2 * k + 1 + 1 := by omega
      simp only [List.flatMap_cons, List.getD_cons_succ]
      rw [h1, show byteHex b = [hexDigit (b / 16), hexDigit (b % 16)] from rfl]
      simp only [List.cons_append, List.drop_succ_cons, List.nil_append]
      exact ih k (by simpa using Nat.lt_of_succ_lt_succ (by simpa using hk))

/-- A prefix of a list, written positionally. -/
theorem take_map_getD (bs : Bytes) :
    ∀ n, n ≤ bs.length → bs.take n = (List.range n).map (fun k => bs.getD k 0) := by
  induction bs with
  | nil =>
    intro n hn
    have h0 : n = 0 := Nat.le_zero.mp (by simpa using hn)
    subst h0
    simp
  | cons b bs ih =>
    intro n hn
    cases n with
    | zero => simp
    | succ n =>
      rw [List.range_succ_eq_map, List.map_cons, List.map_map]
      simp only [List.take_succ_cons, List.getD_cons_zero]
      congr 1
      rw [ih n (by simpa using hn)]
      rfl

/-- `flatMap` over a range respects pointwise equality below the bound. -/
theorem flatMap_range_congr (f g : Nat → List Char) (n : Nat)
    (h : ∀ j < n, f j = g j) :
    (List.range n).flatMap f = (List.range n).flatMap g := by
  induction n with
  | zero => simp
  | succ n ih =>
    rw [List.range_succ, List.flatMap_append, List.flatMap_append,
        ih (fun j hj => h j (by omega))]
    simp [h n (by omega)]

/-- Length of a `flatMap` whose pieces all have length `c`. -/
theorem flatMap_length_const {α : Type} (f : α → List Char) (c : Nat) :
    ∀ l : List α, (∀ a ∈ l, (f a).length = c) →
      (l.flatMap f).length = c * l.length := by
  intro l
  induction l with
  | nil => simp
  | cons a l ih =>
    intro h
    simp only [List.flatMap_cons, List.length_append, List.length_cons]
    rw [h a (by simp), ih (fun x hx => h x (by simp [hx]))]
    ring

/-- **C7** (confirmed).  `generateFingerprint` renders the SHA-256 of the
public key as the lowercase hex of its first 16 bytes joined with `:`
(the spec's rendering, `specFingerprintRender`), has exactly 47
characters, and is a pure function of the public key: reloading the key
files recomputes the identical fingerprint regardless of the private-key
bytes. -/
theorem c7_fingerprint_format (P : Prims) (pub : Bytes)
    (hlen : (P.sha256 pub).length = 32) :
    generateFingerprint P pub = specFingerprintRender (P.sha256 pub) ∧
    (generateFingerprint P pub).length = 47 ∧
    ∀ privA privB : Bytes,
      (loadIdentity P pub privA).fingerprint =
        (loadIdentity P pub privB).fingerprint ∧
      (loadIdentity P pub privA).fingerprint = generateFingerprint P pub := by
  set bs := P.sha256 pub with hbs
  have hslen : (bs.flatMap byteHex).length = 64 := by
    rw [flatMap_byteHex_length, hlen]
  have h30 : 30 < (bs.flatMap byteHex).length := by omega
  have hform : generateFingerprint P pub =
      String.mk (byteHex (bs.getD 0 0) ++ (List.range 15).flatMap
        (fun j => ':' :: byteHex (bs.getD (j + 1) 0))) := by
    rw [generateFingerprint, ← hbs, fpLoop_zero _ h30]
    have h0 : (bs.flatMap byteHex).take 2 = byteHex (bs.getD 0 0) := by
      have := chunk_flatMap_byteHex bs 0 (by omega)
      simpa using this
    rw [h0]
    congr 2
    apply flatMap_range_congr
    intro j hj
    have h2 : 2 + 2 * j = 2 * (j + 1) := by omega
    rw [h2, chunk_flatMap_byteHex bs (j + 1) (by omega)]
  have hspec : specFingerprintRender bs =
      String.mk (byteHex (bs.getD 0 0) ++ (List.range 15).flatMap
        (fun j => ':' :: byteHex (bs.getD (j + 1) 0))) := by
    rw [specFingerprintRender, take_map_getD bs 16 (by omega),
        List.map_map, List.range_succ_eq_map, List.map_cons,
        joinColon_cons, List.flatMap_map, List.flatMap_map]
    rfl
  refine ⟨by rw [hform, hspec], ?_, fun _ _ => ⟨rfl, rfl⟩⟩
  rw [hform]
  simp only [String.length_mk, List.length_append]
  rw [show (byteHex (bs.getD 0 0)).length = 2 from rfl,
      flatMap_length_const (fun j => ':' :: byteHex (bs.getD (j + 1) 0)) 3
        (List.range 15) (fun a _ => rfl)]
  simp

/-- Witness for `c7_fingerprint_format` at the concrete public key
`[1, 2, 3]`. -/
theorem c7_fingerprint_format_witness :
    (toyPrims.sha256 [1, 2, 3]).length = 32 ∧
    (generateFingerprint toyPrims [1, 2, 3] =
        specFingerprintRender (toyPrims.sha256 [1, 2, 3]) ∧
      (generateFingerprint toyPrims [1, 2, 3]).length = 47 ∧
      ∀ privA privB : Bytes,
        (loadIdentity toyPrims [1, 2, 3] privA).fingerprint =
          (loadIdentity toyPrims [1, 2, 3] privB).fingerprint ∧
        (loadIdentity toyPrims [1, 2, 3] privA).fingerprint =
          generateFingerprint toyPrims [1, 2, 3]) :=
  ⟨by decide, c7_fingerprint_format toyPrims [1, 2, 3] (by decide)⟩

/-! ## Claim C8 -/

/-- **C8** (confirmed).  `CreateHandshakeRequest` signs the serialization
of the request whose signature field is still nil (JSON `null`), and
`VerifyHandshakeRequest` — which re-serializes the request with the
signature field set to nil — accepts that request under the signer's
public key, for any serializer and any Ed25519 implementation satisfying
the sign/verify round-trip law. -/
theorem c8_handshake_sign_verify (P : Prims)
    (marshalHR : HandshakeRequest → Bytes) (sk : Bytes)
    (fp deviceName : String) (eph : Bytes) (md : FileMetadata)
    (hlaw : ∀ m, P.edVerify (P.edPub sk) m (P.edSign sk m) = true) :
    (createHandshakeRequest P marshalHR
        ⟨P.edPub sk, sk, fp⟩ deviceName eph md).signature =
      some (P.edSign sk (marshalHR
        { createHandshakeRequest P marshalHR
            ⟨P.edPub sk, sk, fp⟩ deviceName eph md with signature := none })) ∧
    verifyHandshakeRequest P marshalHR
      (createHandshakeRequest P marshalHR ⟨P.edPub sk, sk, fp⟩ deviceName eph md)
      (P.edPub sk) = true := by
  refine ⟨rfl, ?_⟩
  exact hlaw (marshalHR
    { deviceName := deviceName, deviceFingerprint := fp,
      ephemeralPubKey := eph, fileMetadata := md, signature := none })

/-- Witness for `c8_handshake_sign_verify` with the concrete primitives, a
name-only serializer, and private key `[1, 2]`. -/
theorem c8_handshake_sign_verify_witness :
    (∀ m, toyPrims.edVerify (toyPrims.edPub [1, 2]) m
      (toyPrims.edSign [1, 2] m) = true) ∧
    ((createHandshakeRequest toyPrims (fun r => encStr r.deviceName)
        ⟨toyPrims.edPub [1, 2], [1, 2], "fp"⟩ "dev" [7] ⟨"a", 10, "m"⟩).signature =
      some (toyPrims.edSign [1, 2] ((fun (r : HandshakeRequest) => encStr r.deviceName)
        { createHandshakeRequest toyPrims (fun r => encStr r.deviceName)
            ⟨toyPrims.edPub [1, 2], [1, 2], "fp"⟩ "dev" [7] ⟨"a", 10, "m"⟩ with
            signature := none })) ∧
    verifyHandshakeRequest toyPrims (fun r => encStr r.deviceName)
      (createHandshakeRequest toyPrims (fun r => encStr r.deviceName)
        ⟨toyPrims.edPub [1, 2], [1, 2], "fp"⟩ "dev" [7] ⟨"a", 10, "m"⟩)
      (toyPrims.edPub [1, 2]) = true) :=
  ⟨fun m => by simp [toyPrims],
    c8_handshake_sign_verify toyPrims (fun r => encStr r.deviceName) [1, 2]
      "fp" "dev" [7] ⟨"a", 10, "m"⟩ (fun m => by simp [toyPrims])⟩

/-! ## Claim C9 -/

/-- `handleStatus` never changes the server state. -/
theorem handleStatus_fst (st : SState) (x : String) :
    (handleStatus st x).1 = st := by
  cases h : st.sessions x <;> simp [handleStatus, h]

/-- One `/chunk` or `/status` request preserves a zero-chunk session: the
completion branch would require `|received| = 0` right after an insertion,
which is impossible, so the session is neither deleted nor its file
closed. -/
theorem c9_step (P : Prims) (st : SState) (sid : String) (r : AirReq)
    (h : ∃ s, st.sessions sid = some s ∧ s.totalChunks = 0)
    (hc : sid ∉ st.closedSessions) :
    (∃ s, (stepReq P st r).sessions sid = some s ∧ s.totalChunks = 0) ∧
      sid ∉ (stepReq P st r).closedSessions := by
  obtain ⟨s, hs, h0⟩ := h
  cases r with
  | status x =>
    rw [stepReq, handleStatus_fst]
    exact ⟨⟨s, hs, h0⟩, hc⟩
  | chunk md body =>
    rw [stepReq]
    cases hls : st.sessions md.sessionID with
    | none =>
      simp only [handleChunk, hls]
      exact ⟨⟨s, hs, h0⟩, hc⟩
    | some sess =>
      cases hdo : P.gcmOpen sess.sessionKey body with
      | none =>
        simp only [handleChunk, hls, hdo]
        exact ⟨⟨s, hs, h0⟩, hc⟩
      | some plain =>
        by_cases hck : hexEncode (P.sha256 plain) ≠ md.checksum
        · simp only [handleChunk, hls, hdo, if_pos hck]
          exact ⟨⟨s, hs, h0⟩, hc⟩
        · by_cases hoff : wrap64 (md.index * chunkSize) < 0
          · simp only [handleChunk, hls, hdo, if_neg hck, if_pos hoff]
            exact ⟨⟨s, hs, h0⟩, hc⟩
          · by_cases hfull :
                ((insert md.index sess.receivedChunks).card : Int) =
                  sess.totalChunks
            · have hne : md.sessionID ≠ sid := by
                intro he
                subst he
                rw [hls] at hs
                have hss : sess = s := by injection hs
                subst hss
                rw [h0] at hfull
                have hpos : 0 < (insert md.index sess.receivedChunks).card :=
                  Finset.card_pos.mpr (Finset.insert_nonempty _ _)
                omega
              simp only [handleChunk, hls, hdo, if_neg hck, if_neg hoff,
                if_pos hfull]
              refine ⟨⟨s, ?_, h0⟩, ?_⟩
              · have hnot : ¬(sid = md.sessionID) := fun he => hne he.symm
                simp [hnot, hs]
              · simp only [List.mem_append, List.mem_singleton]
                rintro (hin | hin)
                · exact hc hin
                · exact hne hin.symm
            · simp only [handleChunk, hls, hdo, if_neg hck, if_neg hoff,
                if_neg hfull]
              by_cases hid : md.sessionID = sid
              · subst hid
                rw [hls] at hs
                have hss : sess = s := by injection hs
                subst hss
                refine ⟨⟨{ sess with
                    receivedChunks := insert md.index sess.receivedChunks },
                    ?_, h0⟩, hc⟩
                simp
              · refine ⟨⟨s, ?_, h0⟩, hc⟩
                have hnot : ¬(sid = md.sessionID) := fun he => hid he.symm
                simp [hnot, hs]

/-- **C9** (confirmed).  (i) An accepted handshake for a zero-size file
creates a session with `total_chunks = 0` and an empty received set.
(ii) A session whose `total_chunks` is 0 survives every sequence of
`/chunk` and `/status` requests: it is never removed from the table and
its output file is never closed, because the only completion check
compares `|received_set|` — at least 1 right after any successful insert —
with 0.  (iii) `/status` on such a session reports
`progress = float64(0)/float64(0) * 100 = NaN`. -/
theorem c9_zero_size_session :
    (∀ (P : Prims) (st : SState) (req : HandshakeRequest) (ephPriv : Bytes)
        (sid downloadDir : String),
      req.fileMetadata.size = 0 →
      ∃ s, (handleHandshake P st req true ephPriv sid downloadDir).1.sessions
          sid = some s ∧ s.totalChunks = 0 ∧ s.receivedChunks = ∅) ∧
    (∀ (P : Prims) (st : SState) (sid : String) (reqs : List AirReq),
      (∃ s, st.sessions sid = some s ∧ s.totalChunks = 0) →
      sid ∉ st.closedSessions →
      (∃ s, (runReqs P st reqs).sessions sid = some s ∧ s.totalChunks = 0) ∧
        sid ∉ (runReqs P st reqs).closedSessions) ∧
    (∀ (st : SState) (sid : String) (s : TransferSession),
      st.sessions sid = some s → s.totalChunks = 0 → s.receivedChunks = ∅ →
      (handleStatus st sid).2 = .ok
        { sessionID := sid, totalChunks := 0, receivedChunks := ∅,
          progress := .nan, canResume := true }) := by
  refine ⟨?_, ?_, ?_⟩
  · intro P st req ephPriv sid downloadDir hsize
    refine ⟨{ sessionID := sid, senderName := req.deviceName,
              fingerprint := req.deviceFingerprint,
              metaName := req.fileMetadata.name,
              metaSize := req.fileMetadata.size,
              sessionKey := P.sha256 (P.x25519 ephPriv req.ephemeralPubKey),
              totalChunks := serverTotalChunks req.fileMetadata.size,
              receivedChunks := ∅,
              filePath := downloadDir ++ "/" ++ req.fileMetadata.name },
      ?_, ?_, rfl⟩
    · simp [handleHandshake]
    · show serverTotalChunks req.fileMetadata.size = 0
      rw [hsize]
      decide
  · intro P st sid reqs
    induction reqs generalizing st with
    | nil => intro h hc; exact ⟨h, hc⟩
    | cons r rs ih =>
      intro h hc
      have hstep := c9_step P st sid r h hc
      exact ih (stepReq P st r) hstep.1 hstep.2
  · intro st sid s hs h0 hrc
    simp [handleStatus, hs, h0, hrc, goDiv, goMul100]

/-- Witness for `c9_zero_size_session` on concrete inputs: a zero-size
handshake, one `/status` request against the zero-chunk session `zSession`,
and the status report itself. -/
theorem c9_zero_size_session_witness :
    (∃ s, (handleHandshake toyPrims demoState
        ⟨"dev", "fp", [7], ⟨"e", 0, "m"⟩, none⟩ true [3] "Z" "dl").1.sessions
        "Z" = some s ∧ s.totalChunks = 0 ∧ s.receivedChunks = ∅) ∧
    ((∃ s, (runReqs toyPrims zState [.status "Z"]).sessions "Z" = some s ∧
        s.totalChunks = 0) ∧
      "Z" ∉ (runReqs toyPrims zState [.status "Z"]).closedSessions) ∧
    (handleStatus zState "Z").2 = .ok
      { sessionID := "Z", totalChunks := 0, receivedChunks := ∅,
        progress := .nan, canResume := true } :=
  ⟨c9_zero_size_session.1 toyPrims demoState
      ⟨"dev", "fp", [7], ⟨"e", 0, "m"⟩, none⟩ [3] "Z" "dl" rfl,
    c9_zero_size_session.2.1 toyPrims zState "Z" [.status "Z"]
      ⟨zSession, rfl, rfl⟩ (by decide),
    c9_zero_size_session.2.2 zState "Z" zSession rfl rfl rfl⟩
